import Mathlib

/-!
Verification development for the loop-carried dependence and privatization
classification engine of the TSAR private-variable analysis
(lib/Analysis/Memory/PrivateAnalysis.cpp).

The per-location, per-node algorithms of PrivateAnalysis.cpp are shallowly
embedded below.  External collaborators (alias tree, reaching definitions,
liveness, the dependence oracle, the coverage query) enter as explicit
parameters, exactly at the interfaces the pass consumes.
-/

namespace TsarPriv

/-- Modelled from the spec: the repository's BitMemoryTrait.h is not part of
the analyzed sources, only its uses in PrivateAnalysis.cpp are.  The spec
describes a bitset whose conjunction (bitwise AND) conservatively combines
classification evidence, with `NoAccess` the top element.  Each named trait
clears one distinguishing bit of `NoAccess`; accumulated conjunctions clear
several.  Bit assignment (value 1 = evidence absent): bit 0 shared flag,
bit 1 address-access flag, bit 2 header-access flag, bit 3 readonly,
bit 4 private, bit 5 first private, bit 6 second-to-last private,
bit 7 last private, bit 8 dynamic private.  `Dependency`, the most
conservative classification, clears every category bit. -/
def NoAccess : Nat := 511

/-- Modelled from the spec: the `Shared` trait value (shared flag cleared). -/
def SharedT : Nat := 510

/-- Modelled from the spec: the `AddressAccess` flag value. -/
def AddressAccess : Nat := 509

/-- Modelled from the spec: the `HeaderAccess` flag value. -/
def HeaderAccess : Nat := 507

/-- Modelled from the spec: the `Readonly` trait value. -/
def Readonly : Nat := 503

/-- Modelled from the spec: the `Private` trait value. -/
def PrivateT : Nat := 495

/-- Modelled from the spec: the `FirstPrivate` trait value. -/
def FirstPrivate : Nat := 479

/-- Modelled from the spec: the `SecondToLastPrivate` trait value. -/
def SecondToLastPrivate : Nat := 447

/-- Modelled from the spec: the `LastPrivate` trait value. -/
def LastPrivate : Nat := 383

/-- Modelled from the spec: the `DynamicPrivate` trait value. -/
def DynamicPrivate : Nat := 255

/-- Modelled from the spec: the `Dependency` trait value, every category bit
cleared (lattice bottom of the classification categories). -/
def Dependency : Nat := 7

/-- Modelled from the spec: trait conjunction, the `operator&=` of
BitMemoryTrait (bitwise AND of the two bitsets). -/
def meet (a b : Nat) : Nat := a &&& b

/-- Modelled from the spec: `dropUnitFlag` restores the auxiliary unit-flag
bits (address access, header access) so that category comparisons ignore
them. -/
def dropUnitFlag (t : Nat) : Nat := t ||| 6

/-- Modelled from the spec: `dropSharedFlag` restores the shared-flag bit so
that comparisons against a category constant ignore accumulated shared
evidence. -/
def dropSharedFlag (t : Nat) : Nat := t ||| 1

/-- Facts about one explicitly accessed location consumed by
`PrivateRecognitionPass::resolveAccesses` (PrivateAnalysis.cpp:547-591):
whether the dependence map of `collectDependencies` holds a record for the
location's region, the def-use facts of the loop, liveness after the loop
exit, and the reaching-definition facts at the latch and exit nodes. -/
structure AccessFacts where
  hasDeps : Bool
  hasUse : Bool
  liveOut : Bool
  hasDef : Bool
  hasMayDef : Bool
  latchMustReach : Bool
  exitMayReachOverlap : Bool
deriving DecidableEq

/-- The `SharedTrait` local of `resolveAccesses` (PrivateAnalysis.cpp:558,
560-561): initialized to `NoAccess`, downgraded to `Shared` when the region
has no recorded loop-carried dependence. -/
def sharedTraitOf (hasDeps : Bool) : Nat :=
  if hasDeps then NoAccess else SharedT

/-- The `DefTrait` local of `resolveAccesses` (PrivateAnalysis.cpp:559-561):
initialized to `Dependency`, downgraded to `Shared` when the region has no
recorded loop-carried dependence. -/
def defTraitOf (hasDeps : Bool) : Nat :=
  if hasDeps then Dependency else SharedT

/-- The per-location classification of
`PrivateRecognitionPass::resolveAccesses` (PrivateAnalysis.cpp:557-589):
conjoins the chosen case's trait into the location's current trait
`prev`. -/
def resolveAccessTrait (prev : Nat) (a : AccessFacts) : Nat :=
  let sharedTrait := sharedTraitOf a.hasDeps
  let defTrait := defTraitOf a.hasDeps
  if !a.hasUse then
    if !a.liveOut then
      meet prev (meet PrivateT sharedTrait)
    else if a.hasDef then
      meet prev (meet LastPrivate sharedTrait)
    else if a.latchMustReach && !a.exitMayReachOverlap then
      meet prev (meet SecondToLastPrivate (meet FirstPrivate sharedTrait))
    else
      meet prev (meet DynamicPrivate (meet FirstPrivate sharedTrait))
  else if a.hasMayDef || a.hasDef then
    meet prev defTrait
  else
    meet prev Readonly

/-- The descriptor of loop-carried dependence kinds,
`DependenceImp::Descriptor = bcl::TraitDescriptor<Flow, Anti, Output>`
(PrivateAnalysis.cpp:118-119): one presence bit per kind. -/
structure DepDptr where
  flow : Bool
  anti : Bool
  output : Bool
deriving DecidableEq

/-- The three dependence kinds tracked by a DependenceImp record. -/
inductive DepKind where
  | flow
  | anti
  | output
deriving DecidableEq

/-- Whether a kind is set in a descriptor. -/
def DepDptr.hasKind (d : DepDptr) (k : DepKind) : Bool :=
  match k with
  | .flow => d.flow
  | .anti => d.anti
  | .output => d.output

/-- The kinds set in a descriptor, in the order bcl's `for_each` visits
them. -/
def kindsOf (d : DepDptr) : List DepKind :=
  (if d.flow then [DepKind.flow] else []) ++
    (if d.anti then [DepKind.anti] else []) ++
      (if d.output then [DepKind.output] else [])

/-- Modelled from the spec: `trait::Dependence::Flag` of the repository's
tsar_trait.h is not under the analyzed sources; per the spec's dependence
descriptor it carries may-vs-must, cause, and unknown-distance flags,
combined by bitwise or. -/
structure DepFlags where
  may : Bool
  unknownDistance : Bool
  loadStoreCause : Bool
  callCause : Bool
  unknownCause : Bool
deriving DecidableEq

/-- Bitwise or of two flag sets. -/
def DepFlags.orF (a b : DepFlags) : DepFlags :=
  ⟨a.may || b.may, a.unknownDistance || b.unknownDistance,
   a.loadStoreCause || b.loadStoreCause, a.callCause || b.callCause,
   a.unknownCause || b.unknownCause⟩

/-- The flag set holding only `LoadStoreCause`. -/
def lsFlag : DepFlags := ⟨false, false, true, false, false⟩

/-- Internal representation of loop-carried dependencies,
`tsar::detail::DependenceImp` (PrivateAnalysis.cpp:111-230): a kind
descriptor plus, per kind, a flag set and a distance set.  SCEV distance
expressions are modelled as integers; a null SCEV pointer is
`Option.none` at the interface. -/
structure DependenceImp where
  dptr : DepDptr
  flowFlags : DepFlags
  antiFlags : DepFlags
  outputFlags : DepFlags
  flowDists : List Int
  antiDists : List Int
  outputDists : List Int
deriving DecidableEq

/-- The record with no kinds, flags, or distances (a fresh `DependenceImp`
created by `updateDependence`'s `try_emplace`, PrivateAnalysis.cpp:275-277). -/
def emptyDep : DependenceImp :=
  ⟨⟨false, false, false⟩, ⟨false, false, false, false, false⟩,
   ⟨false, false, false, false, false⟩, ⟨false, false, false, false, false⟩,
   [], [], []⟩

/-- Flag set of a record for one kind. -/
def DependenceImp.flags (r : DependenceImp) (k : DepKind) : DepFlags :=
  match k with
  | .flow => r.flowFlags
  | .anti => r.antiFlags
  | .output => r.outputFlags

/-- Distance set of a record for one kind. -/
def DependenceImp.dists (r : DependenceImp) (k : DepKind) : List Int :=
  match k with
  | .flow => r.flowDists
  | .anti => r.antiDists
  | .output => r.outputDists

/-- Store a kind's state into a record, setting the kind's descriptor bit
(the common effect of `mDep->mDptr.set<Trait>()` followed by writing
`mFlags.get<Trait>()` and `mDists.get<Trait>()` in both update functors,
PrivateAnalysis.cpp:173-202). -/
def DependenceImp.setKindState (r : DependenceImp) (k : DepKind)
    (fl : DepFlags) (ds : List Int) : DependenceImp :=
  match k with
  | .flow =>
    { r with dptr := { r.dptr with flow := true }, flowFlags := fl,
             flowDists := ds }
  | .anti =>
    { r with dptr := { r.dptr with anti := true }, antiFlags := fl,
             antiDists := ds }
  | .output =>
    { r with dptr := { r.dptr with output := true }, outputFlags := fl,
             outputDists := ds }

/-- Set-like insertion into a distance set (`SmallPtrSet::insert`). -/
def insertDist (l : List Int) (d : Int) : List Int :=
  if d ∈ l then l else l ++ [d]

/-- Set-like union of two distance sets (`insert(begin, end)`). -/
def unionDists (a b : List Int) : List Int :=
  b.foldl insertDist a

/-- One kind's step of `DependenceImp::UpdateFunctor`
(PrivateAnalysis.cpp:173-187): set the kind; a null distance turns on
UnknownDistance; or the flags in; insert the distance when UnknownDistance
is off, otherwise clear the distance set. -/
def updateKind (f : DepFlags) (dist : Option Int) (r : DependenceImp)
    (k : DepKind) : DependenceImp :=
  let f1 := if dist.isNone then { f with unknownDistance := true } else f
  let fl := DepFlags.orF (r.flags k) f1
  let ds := if fl.unknownDistance then [] else insertDist (r.dists k) (dist.getD 0)
  r.setKindState k fl ds

/-- `DependenceImp::update(Descriptor, Flag, Dist)`
(PrivateAnalysis.cpp:155-157): apply the update functor to every kind set
in the descriptor. -/
def updateImp (dp : DepDptr) (f : DepFlags) (dist : Option Int)
    (r : DependenceImp) : DependenceImp :=
  (kindsOf dp).foldl (updateKind f dist) r

/-- One kind's step of `DependenceImp::UpdateDepFunctor`
(PrivateAnalysis.cpp:190-202): set the kind; or the source's flags in; take
the union of distance sets when UnknownDistance is off, otherwise clear. -/
def mergeKind (src : DependenceImp) (r : DependenceImp)
    (k : DepKind) : DependenceImp :=
  let fl := DepFlags.orF (r.flags k) (src.flags k)
  let ds := if fl.unknownDistance then [] else unionDists (r.dists k) (src.dists k)
  r.setKindState k fl ds

/-- `DependenceImp::update(DependenceImp &)` (PrivateAnalysis.cpp:161-163):
merge another record into this one, kind by kind over the source's set
kinds. -/
def mergeImp (src : DependenceImp) (r : DependenceImp) : DependenceImp :=
  (kindsOf src.dptr).foldl (mergeKind src) r

/-- A single update operation applied to a DependenceImp record: either an
update from a descriptor, flag and optional distance, or a merge from
another record. -/
inductive DepOp where
  | upd (dp : DepDptr) (f : DepFlags) (dist : Option Int)
  | mer (src : DependenceImp)

/-- Apply a sequence of update operations to a record. -/
def applyDepOps (ops : List DepOp) (r : DependenceImp) : DependenceImp :=
  ops.foldl
    (fun acc op =>
      match op with
      | .upd dp f d => updateImp dp f d acc
      | .mer s => mergeImp s acc)
    r

/-- Unsigned-max summarization helper of `SummarizeFunctor`
(`getUMaxExpr` over a non-empty operand vector). -/
def umaxList (l : List Int) : Int :=
  l.foldl max (l.headD 0)

/-- `DependenceImp::SummarizeFunctor` for one kind
(PrivateAnalysis.cpp:127-148): a concrete [min,max] distance range is
computed only when UnknownDistance is off; `getSMaxExpr(-D, D)` is |D| and
`getNotSCEV x` is -1 - x. -/
def summarizeKind (r : DependenceImp) (k : DepKind) : Option (Int × Int) :=
  if (r.flags k).unknownDistance then none
  else
    let maxOps := (r.dists k).map (fun d => max (-d) d)
    let minOps := maxOps.map (fun m => -1 - m)
    some (-1 - umaxList minOps, umaxList maxOps)

/-- The invariant claimed for DependenceImp records: a kind whose
UnknownDistance flag is on stores no distances. -/
def DepInv (r : DependenceImp) : Prop :=
  ∀ k : DepKind, (r.flags k).unknownDistance = true → r.dists k = []

/-- A dependence direction at one loop level,
`llvm::Dependence::DVEntry` direction values. -/
inductive Direction where
  | dvnone
  | lt
  | eq
  | le
  | gt
  | ne
  | ge
  | all
deriving DecidableEq

/-- The outer-level acceptance test of
`PrivateRecognitionPass::insertDependence` (PrivateAnalysis.cpp:397-405):
a direction at an enclosing level passes when it is EQ, ALL, LE or GE. -/
def isOuterOk (d : Direction) : Bool :=
  d == Direction.eq || d == Direction.all || d == Direction.le ||
    d == Direction.ge

/-- The acceptance decision of `insertDependence`
(PrivateAnalysis.cpp:396-410): a result is recorded only when every
strictly enclosing loop level (depths 1 to loopDepth - 1) has direction in
{EQ, ALL, LE, GE} and the direction at the current depth is not EQ. -/
def insertDependenceAccepts (dirs : Nat → Direction) (loopDepth : Nat) : Bool :=
  ((List.range' 1 (loopDepth - 1) 1).all fun od => isOuterOk (dirs od)) &&
    !(dirs loopDepth == Direction.eq)

/-- The kind classification of `insertDependence`
(PrivateAnalysis.cpp:411-429), building a descriptor from the oracle's
isOutput/isFlow/isAnti report and the direction at the current depth. -/
def classifyDep (isOutput isFlow isAnti : Bool) (dir : Direction) : DepDptr :=
  if isOutput then ⟨false, false, true⟩
  else if dir == Direction.all then ⟨true, true, false⟩
  else if isFlow then
    if dir == Direction.lt || dir == Direction.le then ⟨true, false, false⟩
    else ⟨false, true, false⟩
  else if isAnti then
    if dir == Direction.lt || dir == Direction.le then ⟨false, true, false⟩
    else ⟨true, false, false⟩
  else ⟨true, true, false⟩

/-- Look up a region's record in the dependence map (regions are
identified by the id of their estimate memory location). -/
def depsLookup (deps : List (Nat × DependenceImp)) (em : Nat) :
    Option DependenceImp :=
  (deps.find? fun p => p.1 == em).map Prod.snd

/-- `updateDependence` (PrivateAnalysis.cpp:270-280): insert an empty
record for the region when absent, then apply
`DependenceImp::update(Dptr, F, Dist)` to it. -/
def depsUpdate (deps : List (Nat × DependenceImp)) (em : Nat) (dp : DepDptr)
    (f : DepFlags) (dist : Option Int) : List (Nat × DependenceImp) :=
  if deps.any fun p => p.1 == em then
    deps.map fun p => if p.1 == em then (p.1, updateImp dp f dist p.2) else p
  else
    (em, updateImp dp f dist emptyDep) :: deps

/-- `PrivateRecognitionPass::insertDependence` (PrivateAnalysis.cpp:393-435)
for an accepted oracle result on concrete accesses: filter by direction,
classify, and record into the map for both the source and destination
regions with the LoadStoreCause tag ored into the caller's flag. -/
def insertDependence (dirs : Nat → Direction) (loopDepth : Nat)
    (srcEM dstEM : Nat) (isOutput isFlow isAnti : Bool) (f : DepFlags)
    (dist : Option Int) (deps : List (Nat × DependenceImp)) :
    List (Nat × DependenceImp) :=
  if insertDependenceAccepts dirs loopDepth then
    let dp := classifyDep isOutput isFlow isAnti (dirs loopDepth)
    depsUpdate (depsUpdate deps srcEM dp (DepFlags.orF lsFlag f) dist)
      dstEM dp (DepFlags.orF lsFlag f) dist
  else deps

/-- A memory descriptor, the trait bits of `tsar::MemoryDescriptor` that
the analyzed routines read or write: dependence kinds, NoAccess, the
privatization categories and the ExplicitAccess marker. -/
structure MemDesc where
  flow : Bool
  anti : Bool
  output : Bool
  noAccess : Bool
  privateD : Bool
  firstPrivate : Bool
  secondToLastPrivate : Bool
  lastPrivate : Bool
  dynamicPrivate : Bool
  sharedD : Bool
  readonlyD : Bool
  explicitAccess : Bool
deriving DecidableEq

/-- One leaf sub-region of the estimate memory tree below a region, with
the two `isAmbiguousCover` query results `checkFirstPrivate` makes for it
(PrivateAnalysis.cpp:788-794): full coverage by the must-reaching
definitions at the loop exit and at the loop latch. -/
structure LeafCover where
  exitCovered : Bool
  latchCovered : Bool
deriving DecidableEq

/-- The `DefLeafs` collection of `checkFirstPrivate`
(PrivateAnalysis.cpp:796-812): keep a leaf when it is fully covered at the
relevant control point - loop exit for a LastPrivate region, latch or exit
for a SecondToLastPrivate region. -/
def defLeafs (d : MemDesc) (leaves : List LeafCover) : List LeafCover :=
  leaves.filter fun l =>
    if d.lastPrivate then l.exitCovered
    else if d.secondToLastPrivate then l.latchCovered || l.exitCovered
    else true

/-- `PrivateRecognitionPass::checkFirstPrivate`
(PrivateAnalysis.cpp:761-821) on one region: `cover` is the external
coverage test over the precomputed node numbering (MemoryCoverage's
`cover`), `leaves` the leaf descendants of the region, `t` the region's
bit trait and `d` its descriptor.  Returns the updated trait and
descriptor. -/
def checkFirstPrivate (cover : List LeafCover → Bool)
    (leaves : List LeafCover) (t : Nat) (d : MemDesc) : Nat × MemDesc :=
  if d.firstPrivate || (!d.lastPrivate && !d.secondToLastPrivate) then (t, d)
  else if cover (defLeafs d leaves) then (t, d)
  else (meet t FirstPrivate, { d with firstPrivate := true })

/-- Whether a trait is classified Dependency, the
`dropUnitFlag(T) == BitMemoryTrait::Dependency` test of storeResults. -/
def isDepT (t : Nat) : Bool := dropUnitFlag t == Dependency

/-- The `CombinedTrait` accumulation of `storeResults`
(PrivateAnalysis.cpp:938-941, 960-961): conjunction of all surviving
region and unknown entry traits, starting from the default-constructed
`NoAccess`. -/
def combineEntries (ts : List Nat) : Nat :=
  ts.foldl meet NoAccess

/-- The combined classification selected by `storeResults` for a node with
several surviving entries (PrivateAnalysis.cpp:976-980): Readonly when the
conjunction is Readonly modulo unit flags, Shared when it is Shared modulo
unit flags, Dependency otherwise. -/
def combinedClassification (ts : List Nat) : Nat :=
  let c := combineEntries ts
  if dropUnitFlag c = Readonly then Readonly
  else if dropUnitFlag c = SharedT then SharedT
  else Dependency

/-- Empty dependence-kind descriptor. -/
def emptyD : DepDptr := ⟨false, false, false⟩

/-- Full dependence-kind descriptor (flow, anti and output set). -/
def allD : DepDptr := ⟨true, true, true⟩

/-- Kind-wise union of two dependence-kind descriptors
(`bcl::trait::set` of the source's set kinds into the destination). -/
def unionD (a b : DepDptr) : DepDptr :=
  ⟨a.flow || b.flow, a.anti || b.anti, a.output || b.output⟩

/-- A surviving region entry of an alias node in `storeResults`' multi
entry branch: its bit trait and the kind descriptor of its dependence
record (meaningful when the trait is classified Dependency, in which case
`storeDepIfNeed` summarizes exactly these kinds into the entry). -/
structure RegEntry where
  trait : Nat
  recKinds : DepDptr
deriving DecidableEq

/-- The `CombinedDepDptr` accumulation of `storeResults`
(PrivateAnalysis.cpp:939, 955-958, 971-972): Dependency-classified region
entries contribute their record's kinds; a Dependency-classified unknown
access contributes all three kinds. -/
def combinedDepOf (regs : List RegEntry) (unks : List Nat) : DepDptr :=
  let c1 := regs.foldl
    (fun acc e => if isDepT e.trait then unionD acc e.recKinds else acc)
    emptyD
  unks.foldl (fun acc t => if isDepT t then unionD acc allD else acc) c1

/-- The dependence kinds finally carried by each retained region entry of
a multi-entry node: `bcl::trait::unset<Descriptor>` clears the kinds
(PrivateAnalysis.cpp:952), `storeDepIfNeed` restores the record's kinds
for Dependency entries (955-956), and the final loop forces
`CombinedDepDptr` onto every retained entry (1004-1005). -/
def finalRegKinds (regs : List RegEntry) (unks : List Nat) : List DepDptr :=
  let comb := combinedDepOf regs unks
  regs.map fun e =>
    unionD (if isDepT e.trait then e.recKinds else emptyD) comb

/-- Force flow, anti and output into a descriptor, the
`I->set<trait::Flow, trait::Anti, trait::Output>()` of the coverage
closure (PrivateAnalysis.cpp:757). -/
def setFAO (d : MemDesc) : MemDesc :=
  { d with flow := true, anti := true, output := true }

/-- One visit of the coverage closure (PrivateAnalysis.cpp:754-757): when
the dependency set holds a descriptor for the node and it is not NoAccess,
force flow, anti and output into it. -/
def closureVisit (ds : Nat → Option MemDesc) (m : Nat) :
    Nat → Option MemDesc :=
  fun k =>
    if k = m then
      match ds m with
      | some d => if d.noAccess then some d else some (setFAO d)
      | none => none
    else ds k

/-- The coverage closure of `propagateTraits` (PrivateAnalysis.cpp:747-758)
after the post-order walk: `cov` is the list of alias nodes whose
descendant subtree is fully covered by explicitly accessed regions (the
external `explicitAccessCoverage`), `strictDesc n` enumerates the strict
descendants of `n` (the depth-first walks over its children), and `ds` is
the per-node descriptor store. -/
def coverageClosure (cov : List Nat) (strictDesc : Nat → List Nat)
    (ds : Nat → Option MemDesc) : Nat → Option MemDesc :=
  ((cov.map strictDesc).flatten).foldl closureVisit ds

/-- One explicitly accessed location as `resolvePointers` sees it
(PrivateAnalysis.cpp:607-644): its region, whether its address operand is
a load instruction, and the region of the loaded pointer itself. -/
structure PtrAccess where
  loc : Nat
  viaLoadedPtr : Bool
  ptrLoc : Nat
deriving DecidableEq

/-- The skip test of `resolvePointers` (PrivateAnalysis.cpp:617-623): the
location's trait is already resolved to Private (modulo shared and unit
flags), Readonly or Shared (modulo unit flags). -/
def isResolvedCat (t : Nat) : Bool :=
  (dropSharedFlag (dropUnitFlag t) == PrivateT) ||
    (dropUnitFlag t == Readonly) || (dropUnitFlag t == SharedT)

/-- One iteration of `resolvePointers` (PrivateAnalysis.cpp:609-643) over
the trait map: for a location accessed through a loaded pointer, skip when
its trait is already resolved or the pointer's own region is Readonly;
otherwise conjoin Dependency into that location's trait only. -/
def resolvePointerStep (traits : Nat → Nat) (a : PtrAccess) : Nat → Nat :=
  if a.viaLoadedPtr then
    if isResolvedCat (traits a.loc) then traits
    else if dropUnitFlag (traits a.ptrLoc) == Readonly then traits
    else fun k => if k = a.loc then meet (traits a.loc) Dependency
                  else traits k
  else traits

/-- `PrivateRecognitionPass::resolvePointers` over all explicitly accessed
locations. -/
def resolvePointersAll (accesses : List PtrAccess) (traits : Nat → Nat) :
    Nat → Nat :=
  accesses.foldl resolvePointerStep traits

end TsarPriv

namespace TsarPriv

/-- C1: for an explicitly accessed location with no upward-exposed use,
resolveAccesses conjoins exactly one of, in this order: Private when not
live out; LastPrivate when live out with an intra-loop must definition;
SecondToLastPrivate together with FirstPrivate when live out, no must
definition, must-reaching at the latch and not may-reaching at the exit;
otherwise DynamicPrivate together with FirstPrivate - each case conjoined
with SharedTrait.  In particular a non-live-out location with no recorded
loop-carried dependence classifies as Private. -/
theorem C1_resolveAccesses_noUpwardExposure (prev : Nat) (a : AccessFacts)
    (h : a.hasUse = false) :
    (a.liveOut = false →
      resolveAccessTrait prev a =
        meet prev (meet PrivateT (sharedTraitOf a.hasDeps))) ∧
    (a.liveOut = true → a.hasDef = true →
      resolveAccessTrait prev a =
        meet prev (meet LastPrivate (sharedTraitOf a.hasDeps))) ∧
    (a.liveOut = true → a.hasDef = false → a.latchMustReach = true →
      a.exitMayReachOverlap = false →
      resolveAccessTrait prev a =
        meet prev (meet SecondToLastPrivate
          (meet FirstPrivate (sharedTraitOf a.hasDeps)))) ∧
    (a.liveOut = true → a.hasDef = false →
      (a.latchMustReach = false ∨ a.exitMayReachOverlap = true) →
      resolveAccessTrait prev a =
        meet prev (meet DynamicPrivate
          (meet FirstPrivate (sharedTraitOf a.hasDeps)))) ∧
    (a.hasDeps = false → a.liveOut = false →
      dropSharedFlag (dropUnitFlag (resolveAccessTrait NoAccess a)) =
        PrivateT) := by
  rcases a with ⟨hasDeps, hasUse, liveOut, hasDef, hasMayDef, lm, ex⟩
  simp only at h
  subst h
  refine ⟨?_, ?_, ?_, ?_, ?_⟩ <;>
    cases hasDeps <;> cases liveOut <;> cases hasDef <;> cases lm <;>
      cases ex <;> simp_all [resolveAccessTrait, sharedTraitOf] <;> decide

/-- C1 witness: a non-live-out, no-dependence, no-upward-exposed-use
location gets trait Private conjoined with Shared and classifies as
Private. -/
theorem C1_witness :
    resolveAccessTrait NoAccess ⟨false, false, false, false, false, false, false⟩ =
      meet NoAccess (meet PrivateT (sharedTraitOf false)) ∧
    dropSharedFlag (dropUnitFlag
      (resolveAccessTrait NoAccess
        ⟨false, false, false, false, false, false, false⟩)) = PrivateT :=
  ⟨(C1_resolveAccesses_noUpwardExposure NoAccess
      ⟨false, false, false, false, false, false, false⟩ rfl).1 rfl,
   (C1_resolveAccesses_noUpwardExposure NoAccess
      ⟨false, false, false, false, false, false, false⟩ rfl).2.2.2.2 rfl rfl⟩

/-- C8 counterexample: when a dependence is recorded for the region, the
code initializes SharedTrait to NoAccess (PrivateAnalysis.cpp:558), not to
Dependency as the claim states. -/
theorem C8_counterexample :
    sharedTraitOf true = NoAccess ∧ NoAccess ≠ Dependency := by
  constructor
  · rfl
  · decide

/-- C8 amended: SharedTrait and DefTrait both equal Shared exactly when the
region has no recorded loop-carried dependence; when a dependence is
recorded, SharedTrait is NoAccess and DefTrait is Dependency. -/
theorem C8_sharedTrait_defTrait (d : Bool) :
    ((sharedTraitOf d = SharedT ∧ defTraitOf d = SharedT) ↔ d = false) ∧
    (d = true → sharedTraitOf d = NoAccess ∧ defTraitOf d = Dependency) := by
  cases d <;> decide

/-- C8 witness: at a region with a recorded dependence the pair is
(NoAccess, Dependency); without one it is (Shared, Shared). -/
theorem C8_witness :
    (sharedTraitOf true = NoAccess ∧ defTraitOf true = Dependency) ∧
    (sharedTraitOf false = SharedT ∧ defTraitOf false = SharedT) :=
  ⟨(C8_sharedTrait_defTrait true).2 rfl,
   ((C8_sharedTrait_defTrait false).1).mpr rfl⟩

lemma flags_setKindState (r : DependenceImp) (k k' : DepKind) (fl : DepFlags)
    (ds : List Int) :
    (r.setKindState k fl ds).flags k' = if k' = k then fl else r.flags k' := by
  cases k <;> cases k' <;>
    simp [DependenceImp.setKindState, DependenceImp.flags]

lemma dists_setKindState (r : DependenceImp) (k k' : DepKind) (fl : DepFlags)
    (ds : List Int) :
    (r.setKindState k fl ds).dists k' = if k' = k then ds else r.dists k' := by
  cases k <;> cases k' <;>
    simp [DependenceImp.setKindState, DependenceImp.dists]

lemma hasKind_setKindState (r : DependenceImp) (k k' : DepKind) (fl : DepFlags)
    (ds : List Int) :
    (r.setKindState k fl ds).dptr.hasKind k' =
      if k' = k then true else r.dptr.hasKind k' := by
  cases k <;> cases k' <;>
    simp [DependenceImp.setKindState, DepDptr.hasKind]

lemma updateKind_flags (f : DepFlags) (dist : Option Int) (r : DependenceImp)
    (k k' : DepKind) :
    (updateKind f dist r k).flags k' =
      if k' = k then
        DepFlags.orF (r.flags k)
          (if dist.isNone then { f with unknownDistance := true } else f)
      else r.flags k' := by
  simp [updateKind, flags_setKindState]

lemma updateKind_dists (f : DepFlags) (dist : Option Int) (r : DependenceImp)
    (k k' : DepKind) :
    (updateKind f dist r k).dists k' =
      if k' = k then
        if (DepFlags.orF (r.flags k)
            (if dist.isNone then { f with unknownDistance := true } else f)
            ).unknownDistance then []
        else insertDist (r.dists k) (dist.getD 0)
      else r.dists k' := by
  simp [updateKind, dists_setKindState]

lemma mergeKind_flags (src r : DependenceImp) (k k' : DepKind) :
    (mergeKind src r k).flags k' =
      if k' = k then DepFlags.orF (r.flags k) (src.flags k)
      else r.flags k' := by
  simp [mergeKind, flags_setKindState]

lemma mergeKind_dists (src r : DependenceImp) (k k' : DepKind) :
    (mergeKind src r k).dists k' =
      if k' = k then
        if (DepFlags.orF (r.flags k) (src.flags k)).unknownDistance then []
        else unionDists (r.dists k) (src.dists k)
      else r.dists k' := by
  simp [mergeKind, dists_setKindState]

lemma updateKind_inv (f : DepFlags) (dist : Option Int) (r : DependenceImp)
    (k : DepKind) (h : DepInv r) : DepInv (updateKind f dist r k) := by
  intro k' hk
  by_cases e : k' = k
  · rw [updateKind_flags, if_pos e] at hk
    rw [updateKind_dists, if_pos e, if_pos hk]
  · rw [updateKind_flags, if_neg e] at hk
    rw [updateKind_dists, if_neg e]
    exact h k' hk

lemma mergeKind_inv (src r : DependenceImp) (k : DepKind) (h : DepInv r) :
    DepInv (mergeKind src r k) := by
  intro k' hk
  by_cases e : k' = k
  · rw [mergeKind_flags, if_pos e] at hk
    rw [mergeKind_dists, if_pos e, if_pos hk]
  · rw [mergeKind_flags, if_neg e] at hk
    rw [mergeKind_dists, if_neg e]
    exact h k' hk

lemma foldl_pres {α : Type} {P : DependenceImp → Prop}
    (step : DependenceImp → α → DependenceImp)
    (hs : ∀ r x, P r → P (step r x)) :
    ∀ (l : List α) (r : DependenceImp), P r → P (l.foldl step r) := by
  intro l
  induction l with
  | nil => intro r h; exact h
  | cons x xs ih => intro r h; exact ih (step r x) (hs r x h)

lemma foldl_estab {α : Type} {P : DependenceImp → Prop}
    (step : DependenceImp → α → DependenceImp)
    (hs : ∀ r x, P r → P (step r x)) (x0 : α)
    (hset : ∀ r, P (step r x0)) :
    ∀ (l : List α) (r : DependenceImp), x0 ∈ l → P (l.foldl step r) := by
  intro l
  induction l with
  | nil => intro r h; cases h
  | cons x xs ih =>
    intro r h
    rcases List.mem_cons.mp h with he | ht
    · subst he
      exact foldl_pres step hs xs (step r x0) (hset r)
    · exact ih (step r x) ht

lemma hasKind_mem_kindsOf (d : DepDptr) (k : DepKind)
    (h : d.hasKind k = true) : k ∈ kindsOf d := by
  rcases d with ⟨fl, an, ou⟩
  cases fl <;> cases an <;> cases ou <;> cases k <;>
    simp_all [DepDptr.hasKind, kindsOf]

lemma updateImp_inv (dp : DepDptr) (f : DepFlags) (dist : Option Int)
    (r : DependenceImp) (h : DepInv r) : DepInv (updateImp dp f dist r) :=
  foldl_pres (updateKind f dist) (fun r k hr => updateKind_inv f dist r k hr)
    (kindsOf dp) r h

lemma mergeImp_inv (src r : DependenceImp) (h : DepInv r) :
    DepInv (mergeImp src r) :=
  foldl_pres (mergeKind src) (fun r k hr => mergeKind_inv src r k hr)
    (kindsOf src.dptr) r h

lemma emptyDep_inv : DepInv emptyDep := by
  intro k h
  exact absurd h (by cases k <;> decide)

lemma applyDepOps_inv (ops : List DepOp) (r : DependenceImp) (h : DepInv r) :
    DepInv (applyDepOps ops r) := by
  refine foldl_pres _ ?_ ops r h
  intro r op hr
  cases op with
  | upd dp f d => exact updateImp_inv dp f d r hr
  | mer s => exact mergeImp_inv s r hr

lemma updateImp_unknown_of_none (dp : DepDptr) (f : DepFlags)
    (r : DependenceImp) (k : DepKind) (h : dp.hasKind k = true) :
    ((updateImp dp f none r).flags k).unknownDistance = true := by
  show (((kindsOf dp).foldl (updateKind f none) r).flags k).unknownDistance =
    true
  refine foldl_estab
    (P := fun s => (s.flags k).unknownDistance = true)
    (updateKind f none) ?_ k ?_ (kindsOf dp) r
    (hasKind_mem_kindsOf dp k h)
  · intro r x hr
    rw [updateKind_flags]
    by_cases e : k = x
    · rw [if_pos e]
      simp only [DepFlags.orF, Bool.or_eq_true]
      left
      rw [← e]
      exact hr
    · rw [if_neg e]; exact hr
  · intro r
    rw [updateKind_flags, if_pos rfl]
    simp [DepFlags.orF]

/-- C10: across any sequence of DependenceImp updates (from a
descriptor/flag/distance or merged from another record), a kind whose
UnknownDistance flag is set stores an empty distance set; an update with a
null distance always sets UnknownDistance for every updated kind; and
summarization yields a concrete [min,max] distance range exactly when
UnknownDistance is not set. -/
theorem C10_dependenceImp_invariant :
    (∀ ops : List DepOp, DepInv (applyDepOps ops emptyDep)) ∧
    (∀ (dp : DepDptr) (f : DepFlags) (r : DependenceImp) (k : DepKind),
      dp.hasKind k = true →
        ((updateImp dp f none r).flags k).unknownDistance = true) ∧
    (∀ (r : DependenceImp) (k : DepKind),
      (summarizeKind r k).isSome = true ↔
        (r.flags k).unknownDistance = false) := by
  refine ⟨?_, ?_, ?_⟩
  · intro ops
    exact applyDepOps_inv ops emptyDep emptyDep_inv
  · intro dp f r k h
    exact updateImp_unknown_of_none dp f r k h
  · intro r k
    cases h : (r.flags k).unknownDistance <;> simp [summarizeKind, h]

/-- C10 witness: a single update with a null distance on the flow kind
leaves the flow distance set empty with UnknownDistance set, and
summarization is concrete on a fresh record whose flag is clear. -/
theorem C10_witness :
    ((applyDepOps
        [DepOp.upd ⟨true, false, false⟩ ⟨false, false, false, false, false⟩
          none] emptyDep).flags DepKind.flow).unknownDistance = true ∧
    (applyDepOps
        [DepOp.upd ⟨true, false, false⟩ ⟨false, false, false, false, false⟩
          none] emptyDep).dists DepKind.flow = [] ∧
    ((updateImp ⟨true, false, false⟩ ⟨false, false, false, false, false⟩
        none emptyDep).flags DepKind.flow).unknownDistance = true ∧
    (summarizeKind emptyDep DepKind.flow).isSome = true :=
  ⟨by decide,
   (C10_dependenceImp_invariant.1
      [DepOp.upd ⟨true, false, false⟩ ⟨false, false, false, false, false⟩
        none]) DepKind.flow (by decide),
   C10_dependenceImp_invariant.2.1 ⟨true, false, false⟩
     ⟨false, false, false, false, false⟩ emptyDep DepKind.flow (by decide),
   (C10_dependenceImp_invariant.2.2 emptyDep DepKind.flow).mpr (by decide)⟩

/-- C4 counterexample: a loop at depth 3 whose enclosing-level directions
are LT (level 1, not in {EQ, ALL, LE, GE}) and ALL (level 2, in the set),
with current direction LT.  The claim's rejection condition (every
enclosing level outside the set) is false and the current direction is not
EQ, so the claim says the result is recorded; the code rejects it at the
first offending enclosing level. -/
theorem C4_counterexample :
    insertDependenceAccepts
        (fun n => if n = 1 then Direction.lt
                  else if n = 2 then Direction.all else Direction.lt) 3 =
      false ∧
    ¬(∀ od ∈ List.range' 1 2 1,
        isOuterOk
          ((fun n => if n = 1 then Direction.lt
                     else if n = 2 then Direction.all else Direction.lt) od) =
          false) ∧
    (fun n => if n = 1 then Direction.lt
              else if n = 2 then Direction.all else Direction.lt) 3 ≠
      Direction.eq := by
  refine ⟨by decide, ?_, by decide⟩
  intro h
  exact absurd (h 2 (by decide)) (by decide)

/-- C4 amended: insertDependence rejects an oracle result exactly when
some strictly enclosing loop level has a direction outside {EQ, ALL, LE,
GE}, or the direction at the current level is exactly EQ; in all other
cases the result is recorded. -/
theorem C4_directionFilter (dirs : Nat → Direction) (d : Nat) :
    insertDependenceAccepts dirs d = false ↔
      ((∃ od ∈ List.range' 1 (d - 1) 1, isOuterOk (dirs od) = false) ∨
        dirs d = Direction.eq) := by
  simp only [insertDependenceAccepts, Bool.and_eq_false_iff,
    Bool.not_eq_false', beq_iff_eq, List.all_eq_true]
  constructor
  · rintro (h | h)
    · left
      by_contra hc
      push_neg at hc
      apply absurd _ (by simp [h] : ¬((List.range' 1 (d - 1) 1).all
        fun od => isOuterOk (dirs od)) = true)
      rw [List.all_eq_true]
      intro od hod
      have := hc od hod
      simp only [Bool.not_eq_false] at this
      simpa using this
    · right; exact h
  · rintro (⟨od, hod, h⟩ | h)
    · left
      rw [Bool.eq_false_iff]
      intro hall
      rw [List.all_eq_true] at hall
      have := hall od hod
      rw [h] at this
      exact absurd this (by decide)
    · right; exact h

lemma find_map_update (em : Nat) (dp : DepDptr) (f : DepFlags)
    (dist : Option Int) :
    ∀ deps : List (Nat × DependenceImp),
      (deps.any fun p => p.1 == em) = true →
        ∃ r0,
          depsLookup
            (deps.map fun p =>
              if p.1 == em then (p.1, updateImp dp f dist p.2) else p) em =
            some (updateImp dp f dist r0) := by
  intro deps
  induction deps with
  | nil => intro h; simp at h
  | cons p rest ih =>
    intro h
    cases hq : (p.1 == em) with
    | true =>
      refine ⟨p.2, ?_⟩
      simp [depsLookup, List.find?, hq]
    | false =>
      have h' : (rest.any fun q => q.1 == em) = true := by
        simpa [List.any_cons, hq] using h
      obtain ⟨r0, hr⟩ := ih h'
      refine ⟨r0, ?_⟩
      simpa [depsLookup, List.find?, hq] using hr

lemma depsLookup_depsUpdate_self (deps : List (Nat × DependenceImp))
    (em : Nat) (dp : DepDptr) (f : DepFlags) (dist : Option Int) :
    ∃ r0,
      depsLookup (depsUpdate deps em dp f dist) em =
        some (updateImp dp f dist r0) := by
  unfold depsUpdate
  by_cases h : (deps.any fun p => p.1 == em) = true
  · rw [if_pos h]
    exact find_map_update em dp f dist deps h
  · rw [if_neg h]
    exact ⟨emptyDep, by simp [depsLookup]⟩

lemma find_map_ne (em em' : Nat) (g : DependenceImp → DependenceImp)
    (h : em' ≠ em) :
    ∀ deps : List (Nat × DependenceImp),
      ((deps.map fun p => if p.1 == em then (p.1, g p.2) else p).find?
          fun p => p.1 == em') =
        deps.find? fun p => p.1 == em' := by
  intro deps
  induction deps with
  | nil => simp
  | cons p rest ih =>
    cases hq : (p.1 == em) with
    | true =>
      have hq' : p.1 = em := by simpa using hq
      have hne : (p.1 == em') = false := by simp [hq', Ne.symm h]
      simp [List.find?, hq, hne, -List.find?_map]
      simpa using ih
    | false =>
      cases hp : (p.1 == em') with
      | true => simp [List.find?, hq, hp, -List.find?_map]
      | false =>
        simp [List.find?, hq, hp, -List.find?_map]
        simpa using ih

lemma depsLookup_depsUpdate_ne (deps : List (Nat × DependenceImp))
    (em em' : Nat) (dp : DepDptr) (f : DepFlags) (dist : Option Int)
    (h : em' ≠ em) :
    depsLookup (depsUpdate deps em dp f dist) em' = depsLookup deps em' := by
  unfold depsUpdate
  by_cases ha : (deps.any fun p => p.1 == em) = true
  · rw [if_pos ha]
    unfold depsLookup
    rw [find_map_ne em em' (updateImp dp f dist) h deps]
  · rw [if_neg ha]
    unfold depsLookup
    simp [List.find?, (by simp [Ne.symm h] : (em == em') = false)]

lemma updateKind_hasKind (f : DepFlags) (dist : Option Int)
    (r : DependenceImp) (x k : DepKind) :
    (updateKind f dist r x).dptr.hasKind k =
      if k = x then true else r.dptr.hasKind k := by
  simp [updateKind, hasKind_setKindState]

lemma updateImp_hasKind (dp : DepDptr) (f : DepFlags) (dist : Option Int)
    (r : DependenceImp) (k : DepKind) (h : dp.hasKind k = true) :
    ((updateImp dp f dist r).dptr.hasKind k) = true := by
  show (((kindsOf dp).foldl (updateKind f dist) r).dptr.hasKind k) = true
  refine foldl_estab (P := fun s => s.dptr.hasKind k = true)
    (updateKind f dist) ?_ k ?_ (kindsOf dp) r (hasKind_mem_kindsOf dp k h)
  · intro r x hr
    rw [updateKind_hasKind]
    by_cases e : k = x
    · rw [if_pos e]
    · rw [if_neg e]; exact hr
  · intro r
    rw [updateKind_hasKind, if_pos rfl]

lemma updateImp_lsc (dp : DepDptr) (f : DepFlags) (dist : Option Int)
    (r : DependenceImp) (k : DepKind) (h : dp.hasKind k = true)
    (hf : f.loadStoreCause = true) :
    ((updateImp dp f dist r).flags k).loadStoreCause = true := by
  show (((kindsOf dp).foldl (updateKind f dist) r).flags k).loadStoreCause =
    true
  refine foldl_estab (P := fun s => (s.flags k).loadStoreCause = true)
    (updateKind f dist) ?_ k ?_ (kindsOf dp) r (hasKind_mem_kindsOf dp k h)
  · intro r x hr
    rw [updateKind_flags]
    by_cases e : k = x
    · rw [if_pos e]
      simp only [DepFlags.orF, Bool.or_eq_true]
      left
      rw [← e]
      exact hr
    · rw [if_neg e]; exact hr
  · intro r
    rw [updateKind_flags, if_pos rfl]
    simp only [DepFlags.orF, Bool.or_eq_true]
    right
    cases dist <;> simp [hf]

/-- C3 counterexample: an anti dependence reported by the oracle with
forward direction LT is classified Anti by the code
(PrivateAnalysis.cpp:423-425), not Flow as the claim's rule (forward
direction gives Flow) states. -/
theorem C3_counterexample :
    classifyDep false false true Direction.lt =
      DepDptr.mk false true false ∧
    DepDptr.mk false true false ≠ DepDptr.mk true false false := by
  constructor
  · rfl
  · decide

/-- C3 amended: an output dependence maps to Output; direction ALL (or an
unrecognized kind) gives both Flow and Anti; a flow dependence with
forward direction (LT or LE) gives Flow and otherwise Anti; an anti
dependence with forward direction gives Anti and otherwise Flow; and an
accepted result is recorded, tagged load/store-caused, into the records of
both participating regions. -/
theorem C3_classification_and_symmetry (iO iF iA : Bool) (dir : Direction)
    (dirs : Nat → Direction) (d srcEM dstEM : Nat) (f : DepFlags)
    (dist : Option Int) (deps : List (Nat × DependenceImp)) :
    (iO = true → classifyDep iO iF iA dir = ⟨false, false, true⟩) ∧
    (iO = false → dir = Direction.all →
      classifyDep iO iF iA dir = ⟨true, true, false⟩) ∧
    (iO = false → dir ≠ Direction.all → iF = true →
      ((dir = Direction.lt ∨ dir = Direction.le) →
        classifyDep iO iF iA dir = ⟨true, false, false⟩) ∧
      (dir ≠ Direction.lt → dir ≠ Direction.le →
        classifyDep iO iF iA dir = ⟨false, true, false⟩)) ∧
    (iO = false → dir ≠ Direction.all → iF = false → iA = true →
      ((dir = Direction.lt ∨ dir = Direction.le) →
        classifyDep iO iF iA dir = ⟨false, true, false⟩) ∧
      (dir ≠ Direction.lt → dir ≠ Direction.le →
        classifyDep iO iF iA dir = ⟨true, false, false⟩)) ∧
    (iO = false → dir ≠ Direction.all → iF = false → iA = false →
      classifyDep iO iF iA dir = ⟨true, true, false⟩) ∧
    (insertDependenceAccepts dirs d = true →
      ∃ rs rd,
        depsLookup
            (insertDependence dirs d srcEM dstEM iO iF iA f dist deps)
            srcEM = some rs ∧
        depsLookup
            (insertDependence dirs d srcEM dstEM iO iF iA f dist deps)
            dstEM = some rd ∧
        ∀ k : DepKind,
          (classifyDep iO iF iA (dirs d)).hasKind k = true →
            rs.dptr.hasKind k = true ∧ (rs.flags k).loadStoreCause = true ∧
            rd.dptr.hasKind k = true ∧ (rd.flags k).loadStoreCause = true) := by
  refine ⟨?_, ?_, ?_, ?_, ?_, ?_⟩
  · intro h; subst h; simp [classifyDep]
  · intro h hd; subst h; subst hd; simp [classifyDep]
  · intro h hd hF
    subst h; subst hF
    constructor
    · rintro (rfl | rfl) <;> simp [classifyDep]
    · intro h1 h2
      cases dir <;> simp_all [classifyDep]
  · intro h hd hF hA
    subst h; subst hF; subst hA
    constructor
    · rintro (rfl | rfl) <;> simp [classifyDep]
    · intro h1 h2
      cases dir <;> simp_all [classifyDep]
  · intro h hd hF hA
    subst h; subst hF; subst hA
    cases dir <;> simp_all [classifyDep]
  · intro hacc
    simp only [insertDependence, hacc, if_true]
    have hlsc : (DepFlags.orF lsFlag f).loadStoreCause = true := by
      simp [DepFlags.orF, lsFlag]
    by_cases hsd : srcEM = dstEM
    · subst hsd
      obtain ⟨r0, h0⟩ :=
        depsLookup_depsUpdate_self
          (depsUpdate deps srcEM (classifyDep iO iF iA (dirs d))
            (DepFlags.orF lsFlag f) dist)
          srcEM (classifyDep iO iF iA (dirs d)) (DepFlags.orF lsFlag f) dist
      refine ⟨_, _, h0, h0, ?_⟩
      intro k hk
      exact ⟨updateImp_hasKind _ _ _ _ _ hk, updateImp_lsc _ _ _ _ _ hk hlsc,
        updateImp_hasKind _ _ _ _ _ hk, updateImp_lsc _ _ _ _ _ hk hlsc⟩
    · obtain ⟨r1, h1⟩ :=
        depsLookup_depsUpdate_self deps srcEM
          (classifyDep iO iF iA (dirs d)) (DepFlags.orF lsFlag f) dist
      obtain ⟨r2, h2⟩ :=
        depsLookup_depsUpdate_self
          (depsUpdate deps srcEM (classifyDep iO iF iA (dirs d))
            (DepFlags.orF lsFlag f) dist)
          dstEM (classifyDep iO iF iA (dirs d)) (DepFlags.orF lsFlag f) dist
      refine ⟨updateImp (classifyDep iO iF iA (dirs d))
          (DepFlags.orF lsFlag f) dist r1,
        updateImp (classifyDep iO iF iA (dirs d))
          (DepFlags.orF lsFlag f) dist r2, ?_, h2, ?_⟩
      · rw [depsLookup_depsUpdate_ne _ dstEM srcEM _ _ _ hsd]
        exact h1
      · intro k hk
        exact ⟨updateImp_hasKind _ _ _ _ _ hk,
          updateImp_lsc _ _ _ _ _ hk hlsc,
          updateImp_hasKind _ _ _ _ _ hk,
          updateImp_lsc _ _ _ _ _ hk hlsc⟩

/-- C3 witness: a flow dependence with direction LT at loop depth 1 is
classified Flow and recorded for both regions 0 and 1 with the
load/store-caused tag. -/
theorem C3_witness :
    (classifyDep false true false Direction.lt = ⟨true, false, false⟩) ∧
    (insertDependenceAccepts (fun _ => Direction.lt) 1 = true) ∧
    (∃ rs rd,
      depsLookup
          (insertDependence (fun _ => Direction.lt) 1 0 1 false true false
            ⟨false, false, false, false, false⟩ (some 1) [])
          0 = some rs ∧
      depsLookup
          (insertDependence (fun _ => Direction.lt) 1 0 1 false true false
            ⟨false, false, false, false, false⟩ (some 1) [])
          1 = some rd ∧
      ∀ k : DepKind,
        (classifyDep false true false Direction.lt).hasKind k = true →
          rs.dptr.hasKind k = true ∧ (rs.flags k).loadStoreCause = true ∧
          rd.dptr.hasKind k = true ∧ (rd.flags k).loadStoreCause = true) :=
  ⟨((C3_classification_and_symmetry false true false Direction.lt
      (fun _ => Direction.lt) 1 0 1 ⟨false, false, false, false, false⟩
      (some 1) []).2.2.1 rfl (by decide) rfl).1 (Or.inl rfl),
   by decide,
   (C3_classification_and_symmetry false true false Direction.lt
      (fun _ => Direction.lt) 1 0 1 ⟨false, false, false, false, false⟩
      (some 1) []).2.2.2.2.2 (by decide)⟩

/-- C2: for a region classified LastPrivate or SecondToLastPrivate and not
already FirstPrivate, checkFirstPrivate collects the leaves fully covered
by the must-reaching definitions at the relevant control point (exit for
LastPrivate, latch or exit for SecondToLastPrivate); when the coverage
test succeeds on them the trait and descriptor are unchanged, otherwise
FirstPrivate is conjoined into the trait and set in the descriptor. -/
theorem C2_checkFirstPrivate (cover : List LeafCover → Bool)
    (leaves : List LeafCover) (t : Nat) (d : MemDesc)
    (hfp : d.firstPrivate = false)
    (hlp : d.lastPrivate = true ∨ d.secondToLastPrivate = true) :
    (cover (defLeafs d leaves) = true →
      checkFirstPrivate cover leaves t d = (t, d)) ∧
    (cover (defLeafs d leaves) = false →
      checkFirstPrivate cover leaves t d =
        (meet t FirstPrivate, { d with firstPrivate := true })) ∧
    (d.lastPrivate = true →
      defLeafs d leaves = leaves.filter fun l => l.exitCovered) ∧
    (d.lastPrivate = false → d.secondToLastPrivate = true →
      defLeafs d leaves =
        leaves.filter fun l => l.latchCovered || l.exitCovered) := by
  have hguard :
      (d.firstPrivate || (!d.lastPrivate && !d.secondToLastPrivate)) =
        false := by
    rcases hlp with h | h <;> simp [hfp, h]
  refine ⟨?_, ?_, ?_, ?_⟩
  · intro hc; simp [checkFirstPrivate, hguard, hc]
  · intro hc; simp [checkFirstPrivate, hguard, hc]
  · intro h; simp [defLeafs, h]
  · intro h1 h2; simp [defLeafs, h1, h2]

/-- C2 witness: a LastPrivate region whose single leaf is exit-covered is
left unchanged under a coverage test accepting one leaf, while one whose
leaf is uncovered gets FirstPrivate conjoined into trait and
descriptor. -/
theorem C2_witness :
    checkFirstPrivate (fun ls => ls.length == 1) [⟨true, false⟩] LastPrivate
        ⟨false, false, false, false, false, false, false, true, false,
          false, false, false⟩ =
      (LastPrivate,
        ⟨false, false, false, false, false, false, false, true, false,
          false, false, false⟩) ∧
    checkFirstPrivate (fun ls => ls.length == 1) [⟨false, false⟩] LastPrivate
        ⟨false, false, false, false, false, false, false, true, false,
          false, false, false⟩ =
      (meet LastPrivate FirstPrivate,
        ⟨false, false, false, false, false, true, false, true, false,
          false, false, false⟩) :=
  ⟨(C2_checkFirstPrivate (fun ls => ls.length == 1) [⟨true, false⟩]
      LastPrivate
      ⟨false, false, false, false, false, false, false, true, false,
        false, false, false⟩ rfl (Or.inl rfl)).1 (by decide),
   (C2_checkFirstPrivate (fun ls => ls.length == 1) [⟨false, false⟩]
      LastPrivate
      ⟨false, false, false, false, false, false, false, true, false,
        false, false, false⟩ rfl (Or.inl rfl)).2.1 (by decide)⟩

lemma resolvePointerStep_other (traits : Nat → Nat) (a : PtrAccess)
    (k : Nat) (h : k ≠ a.loc) :
    resolvePointerStep traits a k = traits k := by
  unfold resolvePointerStep
  split
  · split
    · rfl
    · split
      · rfl
      · simp [h]
  · rfl

lemma resolvePointersAll_untouched (accesses : List PtrAccess) :
    ∀ (traits : Nat → Nat) (k : Nat), (∀ b ∈ accesses, b.loc ≠ k) →
      resolvePointersAll accesses traits k = traits k := by
  induction accesses with
  | nil => intro traits k _; rfl
  | cons a rest ih =>
    intro traits k h
    show resolvePointersAll rest (resolvePointerStep traits a) k = traits k
    rw [ih (resolvePointerStep traits a) k
      (fun b hb => h b (List.mem_cons_of_mem a hb))]
    exact resolvePointerStep_other traits a k
      (Ne.symm (h a (List.mem_cons_self a rest)))

/-- C9: for a location accessed through a loaded pointer, resolvePointers
leaves its trait unchanged when the trait is already Private, Readonly or
Shared, or when the pointer's own region is Readonly; otherwise it
conjoins Dependency into that location's trait; and it modifies the trait
of no other location. -/
theorem C9_resolvePointers (traits : Nat → Nat) (a : PtrAccess)
    (accesses : List PtrAccess) (hv : a.viaLoadedPtr = true) :
    (isResolvedCat (traits a.loc) = true →
      ∀ k, resolvePointerStep traits a k = traits k) ∧
    (dropUnitFlag (traits a.ptrLoc) = Readonly →
      ∀ k, resolvePointerStep traits a k = traits k) ∧
    (isResolvedCat (traits a.loc) = false →
      dropUnitFlag (traits a.ptrLoc) ≠ Readonly →
      resolvePointerStep traits a a.loc = meet (traits a.loc) Dependency) ∧
    (∀ k, k ≠ a.loc → resolvePointerStep traits a k = traits k) ∧
    (∀ k, (∀ b ∈ accesses, b.loc ≠ k) →
      resolvePointersAll accesses traits k = traits k) := by
  refine ⟨?_, ?_, ?_, ?_, ?_⟩
  · intro h1 k
    simp [resolvePointerStep, hv, h1]
  · intro h2 k
    by_cases h1 : isResolvedCat (traits a.loc) = true
    · simp [resolvePointerStep, hv, h1]
    · simp [resolvePointerStep, hv, h1, h2]
  · intro h1 h2
    simp [resolvePointerStep, hv, h1, h2]
  · intro k hk
    exact resolvePointerStep_other traits a k hk
  · intro k hk
    exact resolvePointersAll_untouched accesses traits k hk

/-- C9 witness: a last-private-and-shared location read through a
non-readonly pointer gets Dependency conjoined, other locations are
untouched, and a Shared location is skipped. -/
theorem C9_witness :
    resolvePointerStep
        (fun k => if k = 0 then meet LastPrivate SharedT else SharedT)
        ⟨0, true, 1⟩ 0 =
      meet (meet LastPrivate SharedT) Dependency ∧
    resolvePointerStep
        (fun k => if k = 0 then meet LastPrivate SharedT else SharedT)
        ⟨0, true, 1⟩ 5 =
      SharedT ∧
    (∀ k, resolvePointerStep
        (fun k => if k = 0 then meet LastPrivate SharedT else SharedT)
        ⟨5, true, 1⟩ k =
      (fun k => if k = 0 then meet LastPrivate SharedT else SharedT) k) :=
  ⟨(C9_resolvePointers
      (fun k => if k = 0 then meet LastPrivate SharedT else SharedT)
      ⟨0, true, 1⟩ [] rfl).2.2.1 (by decide) (by decide),
   (C9_resolvePointers
      (fun k => if k = 0 then meet LastPrivate SharedT else SharedT)
      ⟨0, true, 1⟩ [] rfl).2.2.2.1 5 (by decide),
   (C9_resolvePointers
      (fun k => if k = 0 then meet LastPrivate SharedT else SharedT)
      ⟨5, true, 1⟩ [] rfl).1 (by decide)⟩

lemma setFAO_idem (d : MemDesc) : setFAO (setFAO d) = setFAO d := rfl

lemma setFAO_noAccess (d : MemDesc) : (setFAO d).noAccess = d.noAccess := rfl

lemma closureVisit_other (ds : Nat → Option MemDesc) (m k : Nat)
    (h : k ≠ m) : closureVisit ds m k = ds k := by
  unfold closureVisit
  rw [if_neg h]

lemma closureVisit_self (ds : Nat → Option MemDesc) (m : Nat) :
    closureVisit ds m m =
      match ds m with
      | some d => if d.noAccess then some d else some (setFAO d)
      | none => none := by
  unfold closureVisit
  rw [if_pos rfl]

lemma closureFold_cases :
    ∀ (ws : List Nat) (ds : Nat → Option MemDesc) (k : Nat),
      (ws.foldl closureVisit ds) k = ds k ∨
        ∃ d, ds k = some d ∧ d.noAccess = false ∧
          (ws.foldl closureVisit ds) k = some (setFAO d) := by
  intro ws
  induction ws with
  | nil => intro ds k; left; rfl
  | cons m rest ih =>
    intro ds k
    rw [List.foldl_cons]
    rcases ih (closureVisit ds m) k with h | ⟨d, hd, hna, hres⟩
    · by_cases e : k = m
      · subst e
        cases hdm : ds k with
        | none =>
          left
          rw [h, closureVisit_self, hdm]
        | some d =>
          by_cases hna : d.noAccess = true
          · left
            rw [h, closureVisit_self, hdm]
            simp [hna]
          · right
            refine ⟨d, rfl, by simpa using hna, ?_⟩
            rw [h, closureVisit_self, hdm]
            simp [hna]
      · left
        rw [h, closureVisit_other ds m k e]
    · by_cases e : k = m
      · subst e
        cases hdm : ds k with
        | none =>
          rw [closureVisit_self, hdm] at hd
          simp at hd
        | some d0 =>
          by_cases hna0 : d0.noAccess = true
          · rw [closureVisit_self, hdm] at hd
            simp [hna0] at hd
            subst hd
            simp [hna] at hna0
          · right
            refine ⟨d0, rfl, by simpa using hna0, ?_⟩
            rw [closureVisit_self, hdm] at hd
            simp [hna0] at hd
            rw [hres, ← hd, setFAO_idem]
      · right
        refine ⟨d, ?_, hna, hres⟩
        rw [← closureVisit_other ds m k e]
        exact hd

lemma closureFold_pos :
    ∀ (ws : List Nat) (ds : Nat → Option MemDesc) (k : Nat), k ∈ ws →
      ∀ d, ds k = some d → d.noAccess = false →
        (ws.foldl closureVisit ds) k = some (setFAO d) := by
  intro ws
  induction ws with
  | nil => intro ds k h; cases h
  | cons m rest ih =>
    intro ds k hmem d hd hna
    show (rest.foldl closureVisit (closureVisit ds m)) k = some (setFAO d)
    rcases List.mem_cons.mp hmem with e | hmem'
    · subst e
      have hv : (closureVisit ds k) k = some (setFAO d) := by
        rw [closureVisit_self, hd]
        simp [hna]
      rcases closureFold_cases rest (closureVisit ds k) k with
        h | ⟨d', hd', _, hres⟩
      · rw [h, hv]
      · rw [hv] at hd'
        have : setFAO d = d' := by injection hd'
        rw [hres, ← this, setFAO_idem]
    · by_cases e : k = m
      · subst e
        have hv : (closureVisit ds k) k = some (setFAO d) := by
          rw [closureVisit_self, hd]
          simp [hna]
        have hfold := ih (closureVisit ds k) k hmem' (setFAO d) hv
          (by rw [setFAO_noAccess]; exact hna)
        rw [hfold, setFAO_idem]
      · have hv : (closureVisit ds m) k = some d := by
          rw [closureVisit_other ds m k e]
          exact hd
        exact ih (closureVisit ds m) k hmem' d hv hna

/-- C7: after the full walk, for every node in the explicit-access
coverage set, every strict descendant with a stored non-NoAccess
descriptor has flow, anti and output forced into it; the closure either
leaves a stored descriptor unchanged or replaces it by its setFAO image,
so it never clears a trait bit - it only adds flow, anti and output. -/
theorem C7_coverageClosure (cov : List Nat) (strictDesc : Nat → List Nat)
    (ds : Nat → Option MemDesc) :
    (∀ n ∈ cov, ∀ m ∈ strictDesc n, ∀ d, ds m = some d →
      d.noAccess = false →
        coverageClosure cov strictDesc ds m = some (setFAO d)) ∧
    (∀ k, coverageClosure cov strictDesc ds k = ds k ∨
      ∃ d, ds k = some d ∧ d.noAccess = false ∧
        coverageClosure cov strictDesc ds k = some (setFAO d)) ∧
    (∀ k d d', ds k = some d →
      coverageClosure cov strictDesc ds k = some d' →
        (d'.noAccess = d.noAccess ∧ d'.privateD = d.privateD ∧
         d'.firstPrivate = d.firstPrivate ∧
         d'.secondToLastPrivate = d.secondToLastPrivate ∧
         d'.lastPrivate = d.lastPrivate ∧
         d'.dynamicPrivate = d.dynamicPrivate ∧ d'.sharedD = d.sharedD ∧
         d'.readonlyD = d.readonlyD ∧
         d'.explicitAccess = d.explicitAccess) ∧
        (d.flow = true → d'.flow = true) ∧
        (d.anti = true → d'.anti = true) ∧
        (d.output = true → d'.output = true)) := by
  refine ⟨?_, ?_, ?_⟩
  · intro n hn m hm d hd hna
    refine closureFold_pos ((cov.map strictDesc).flatten) ds m ?_ d hd hna
    exact List.mem_flatten.mpr ⟨strictDesc n, List.mem_map_of_mem _ hn, hm⟩
  · intro k
    exact closureFold_cases ((cov.map strictDesc).flatten) ds k
  · intro k d d' hd hc
    rcases closureFold_cases ((cov.map strictDesc).flatten) ds k with
      h | ⟨d0, hd0, _, hres⟩
    · rw [coverageClosure] at hc
      rw [h, hd] at hc
      have : d = d' := by injection hc
      subst this
      exact ⟨⟨rfl, rfl, rfl, rfl, rfl, rfl, rfl, rfl, rfl⟩,
        fun h => h, fun h => h, fun h => h⟩
    · rw [hd] at hd0
      have hdd : d = d0 := by injection hd0
      subst hdd
      rw [coverageClosure] at hc
      rw [hres] at hc
      have : setFAO d = d' := by injection hc
      subst this
      exact ⟨⟨rfl, rfl, rfl, rfl, rfl, rfl, rfl, rfl, rfl⟩,
        fun _ => rfl, fun _ => rfl, fun _ => rfl⟩

/-- C7 witness: with node 0 covered and node 1 its strict descendant
holding a non-NoAccess descriptor whose output bit is already set, the
closure forces flow, anti and output onto node 1 and keeps the output
bit. -/
theorem C7_witness :
    coverageClosure [0] (fun _ => [1])
        (fun k =>
          if k = 1 then
            some ⟨false, false, true, false, false, false, false, false,
              false, false, false, true⟩
          else none) 1 =
      some (setFAO
        ⟨false, false, true, false, false, false, false, false, false,
          false, false, true⟩) :=
  (C7_coverageClosure [0] (fun _ => [1])
      (fun k =>
        if k = 1 then
          some ⟨false, false, true, false, false, false, false, false,
            false, false, false, true⟩
        else none)).1 0 (by decide) 1 (by decide) _ rfl rfl

lemma meet_self (a : Nat) : meet a a = a := by
  unfold meet
  apply Nat.eq_of_testBit_eq
  intro i
  simp [Nat.testBit_land]

lemma land_trans (a b c : Nat) (h1 : a &&& b = a) (h2 : b &&& c = b) :
    a &&& c = a := by
  calc a &&& c = (a &&& b) &&& c := by rw [h1]
    _ = a &&& (b &&& c) := Nat.land_assoc a b c
    _ = a &&& b := by rw [h2]
    _ = a := h1

lemma dropUnit_meet (a b : Nat) :
    dropUnitFlag (meet a b) = meet (dropUnitFlag a) (dropUnitFlag b) := by
  unfold dropUnitFlag meet
  apply Nat.eq_of_testBit_eq
  intro i
  simp only [Nat.testBit_lor, Nat.testBit_land]
  cases a.testBit i <;> cases b.testBit i <;> cases (6 : Nat).testBit i <;>
    rfl

lemma dropUnit_foldl :
    ∀ (ts : List Nat) (acc : Nat),
      dropUnitFlag (ts.foldl meet acc) =
        (ts.map dropUnitFlag).foldl meet (dropUnitFlag acc) := by
  intro ts
  induction ts with
  | nil => intro acc; rfl
  | cons x xs ih =>
    intro acc
    rw [List.foldl_cons, List.map_cons, List.foldl_cons, ih, dropUnit_meet]

lemma meet_absorb_left (a b : Nat) : meet (meet a b) a = meet a b := by
  unfold meet
  apply Nat.eq_of_testBit_eq
  intro i
  simp only [Nat.testBit_land]
  cases a.testBit i <;> cases b.testBit i <;> rfl

lemma meet_absorb_right (a b : Nat) : meet (meet a b) b = meet a b := by
  unfold meet
  apply Nat.eq_of_testBit_eq
  intro i
  simp only [Nat.testBit_land]
  cases a.testBit i <;> cases b.testBit i <;> rfl

lemma foldl_meet_sub_acc :
    ∀ (ts : List Nat) (acc : Nat),
      meet (ts.foldl meet acc) acc = ts.foldl meet acc := by
  intro ts
  induction ts with
  | nil => intro acc; exact meet_self acc
  | cons x xs ih =>
    intro acc
    rw [List.foldl_cons]
    exact land_trans _ _ _ (ih (meet acc x)) (meet_absorb_left acc x)

lemma foldl_meet_sub_mem :
    ∀ (ts : List Nat) (acc t : Nat), t ∈ ts →
      meet (ts.foldl meet acc) t = ts.foldl meet acc := by
  intro ts
  induction ts with
  | nil => intro acc t h; cases h
  | cons x xs ih =>
    intro acc t h
    rw [List.foldl_cons]
    rcases List.mem_cons.mp h with he | hm
    · subst he
      exact land_trans _ _ _ (foldl_meet_sub_acc xs (meet acc t))
        (meet_absorb_right acc t)
    · exact ih (meet acc x) t hm

lemma lor_subT (a b c : Nat) (ha : a &&& c = a) (hb : b &&& c = b) :
    (a ||| b) &&& c = a ||| b := by
  apply Nat.eq_of_testBit_eq
  intro i
  have ha' := congrArg (fun x => x.testBit i) ha
  have hb' := congrArg (fun x => x.testBit i) hb
  simp only [Nat.testBit_land, Nat.testBit_lor] at ha' hb' ⊢
  cases h1 : a.testBit i <;> cases h2 : b.testBit i <;>
    cases h3 : c.testBit i <;> simp_all

lemma foldl_meet_const (v : Nat) :
    ∀ (l : List Nat), (∀ x ∈ l, x = v) → ∀ acc : Nat, meet acc v = v →
      l ≠ [] → l.foldl meet acc = v := by
  intro l
  induction l with
  | nil => intro _ _ _ h; exact absurd rfl h
  | cons x xs ih =>
    intro hall acc hacc _
    rw [List.foldl_cons, hall x (List.mem_cons_self x xs), hacc]
    cases xs with
    | nil => rfl
    | cons y ys =>
      exact ih (fun z hz => hall z (List.mem_cons_of_mem x hz)) v
        (meet_self v) (by simp)

set_option maxRecDepth 4096 in
lemma between_Readonly :
    ∀ x, x < 512 → meet Readonly x = Readonly →
      x = Readonly ∨ x = NoAccess := by
  decide

set_option maxRecDepth 4096 in
lemma between_SharedT :
    ∀ x, x < 512 → meet SharedT x = SharedT →
      x = SharedT ∨ x = NoAccess := by
  decide

lemma combine_eq_catval (v : Nat)
    (hbet : ∀ x, x < 512 → meet v x = v → x = v ∨ x = NoAccess)
    (hinit : meet NoAccess v = v)
    (ts : List Nat) (h1 : ts ≠ [])
    (h2 : ∀ t ∈ ts, meet t NoAccess = t)
    (h3 : ∀ t ∈ ts, dropUnitFlag t ≠ NoAccess) :
    dropUnitFlag (combineEntries ts) = v ↔
      ∀ t ∈ ts, dropUnitFlag t = v := by
  constructor
  · intro hc t ht
    have hsub := foldl_meet_sub_mem ts NoAccess t ht
    have h4 : meet (dropUnitFlag (combineEntries ts)) (dropUnitFlag t) =
        dropUnitFlag (combineEntries ts) := by
      rw [← dropUnit_meet]
      unfold combineEntries
      rw [hsub]
    rw [hc] at h4
    have hb : dropUnitFlag t < 512 := by
      have hsub511 : dropUnitFlag t &&& 511 = dropUnitFlag t :=
        lor_subT t 6 511 (h2 t ht) (by decide)
      have hle : dropUnitFlag t &&& 511 ≤ 511 := Nat.and_le_right
      omega
    rcases hbet (dropUnitFlag t) hb h4 with h | h
    · exact h
    · exact absurd h (h3 t ht)
  · intro hall
    unfold combineEntries
    rw [dropUnit_foldl, (by decide : dropUnitFlag NoAccess = NoAccess)]
    refine foldl_meet_const v (ts.map dropUnitFlag) ?_ NoAccess hinit ?_
    · intro x hx
      rw [List.mem_map] at hx
      obtain ⟨t, ht, rfl⟩ := hx
      exact hall t ht
    · intro hmap
      exact h1 (by simpa using hmap)

/-- C5 counterexample: a node whose surviving entries are an
address-access-only entry (trait NoAccess conjoined with AddressAccess)
and a Readonly entry is classified Readonly by the code, although not
every entry is Readonly (and none is Shared), where the claim requires
Dependency. -/
theorem C5_counterexample :
    combinedClassification [meet NoAccess AddressAccess, Readonly] =
      Readonly ∧
    dropUnitFlag (meet NoAccess AddressAccess) ≠ Readonly ∧
    dropUnitFlag (meet NoAccess AddressAccess) ≠ SharedT ∧
    Readonly ≠ Dependency := by
  decide

/-- C5 amended: for a finalized node with surviving entries each of which
records some access (its trait is a sub-bitset of NoAccess whose
unit-flag-restored value is not NoAccess), the combined classification is
Readonly when every entry is Readonly modulo unit flags, Shared when
every entry is Shared modulo unit flags, and Dependency in every other
case. -/
theorem C5_combinedClassification (ts : List Nat) (h1 : ts ≠ [])
    (h2 : ∀ t ∈ ts, meet t NoAccess = t)
    (h3 : ∀ t ∈ ts, dropUnitFlag t ≠ NoAccess) :
    combinedClassification ts =
      if ts.all fun t => dropUnitFlag t == Readonly then Readonly
      else if ts.all fun t => dropUnitFlag t == SharedT then SharedT
      else Dependency := by
  have hr := combine_eq_catval Readonly between_Readonly (by decide) ts h1
    h2 h3
  have hs := combine_eq_catval SharedT between_SharedT (by decide) ts h1
    h2 h3
  simp only [combinedClassification]
  by_cases hra : ∀ t ∈ ts, dropUnitFlag t = Readonly
  · have hb : (ts.all fun t => dropUnitFlag t == Readonly) = true := by
      rw [List.all_eq_true]
      intro t ht
      rw [beq_iff_eq]
      exact hra t ht
    rw [hb, if_pos (hr.mpr hra)]
    rfl
  · have hb : (ts.all fun t => dropUnitFlag t == Readonly) = false := by
      rw [Bool.eq_false_iff]
      intro hall
      apply hra
      intro t ht
      have := (List.all_eq_true.mp hall) t ht
      rwa [beq_iff_eq] at this
    have hcr : dropUnitFlag (combineEntries ts) ≠ Readonly :=
      fun hcc => hra (hr.mp hcc)
    rw [hb, if_neg hcr]
    by_cases hsa : ∀ t ∈ ts, dropUnitFlag t = SharedT
    · have hbs : (ts.all fun t => dropUnitFlag t == SharedT) = true := by
        rw [List.all_eq_true]
        intro t ht
        rw [beq_iff_eq]
        exact hsa t ht
      rw [hbs, if_pos (hs.mpr hsa)]
      rfl
    · have hbs : (ts.all fun t => dropUnitFlag t == SharedT) = false := by
        rw [Bool.eq_false_iff]
        intro hall
        apply hsa
        intro t ht
        have := (List.all_eq_true.mp hall) t ht
        rwa [beq_iff_eq] at this
      have hcs : dropUnitFlag (combineEntries ts) ≠ SharedT :=
        fun hcc => hsa (hs.mp hcc)
      rw [hbs, if_neg hcs]
      rfl

/-- C5 witness: two Readonly entries combine to Readonly, and a Readonly
entry next to a Dependency entry combines to Dependency. -/
theorem C5_witness :
    combinedClassification [Readonly, Readonly] = Readonly ∧
    combinedClassification [Readonly, Dependency] = Dependency :=
  ⟨by
    rw [C5_combinedClassification [Readonly, Readonly] (by decide)
      (by decide) (by decide)]
    decide,
   by
    rw [C5_combinedClassification [Readonly, Dependency] (by decide)
      (by decide) (by decide)]
    decide⟩

lemma bool_or_absorb (x y : Bool) : (x || (y || x)) = (y || x) := by
  cases x <;> cases y <;> rfl

lemma unionD_assoc (a b c : DepDptr) :
    unionD (unionD a b) c = unionD a (unionD b c) := by
  cases a; cases b; cases c
  simp [unionD, Bool.or_assoc]

lemma unionD_absorb (a b : DepDptr) : unionD a (unionD b a) = unionD b a := by
  cases a; cases b
  simp [unionD, bool_or_absorb]

lemma unionD_emptyD (b : DepDptr) : unionD emptyD b = b := by
  cases b
  simp [unionD, emptyD]

lemma foldl_ud_mono {α : Type} (g : α → DepDptr) (c : α → Bool)
    (d : DepDptr) :
    ∀ (l : List α) (acc : DepDptr), unionD d acc = acc →
      unionD d (l.foldl (fun a x => if c x then unionD a (g x) else a) acc) =
        l.foldl (fun a x => if c x then unionD a (g x) else a) acc := by
  intro l
  induction l with
  | nil => intro acc h; exact h
  | cons x xs ih =>
    intro acc h
    rw [List.foldl_cons]
    by_cases hc : c x = true
    · simp only [hc, if_true]
      refine ih (unionD acc (g x)) ?_
      rw [← unionD_assoc, h]
    · simp only [hc, if_false]
      exact ih acc h

lemma foldl_ud_contrib {α : Type} (g : α → DepDptr) (c : α → Bool) :
    ∀ (l : List α) (acc : DepDptr) (e : α), e ∈ l → c e = true →
      unionD (g e)
          (l.foldl (fun a x => if c x then unionD a (g x) else a) acc) =
        l.foldl (fun a x => if c x then unionD a (g x) else a) acc := by
  intro l
  induction l with
  | nil => intro acc e h; cases h
  | cons x xs ih =>
    intro acc e hmem hce
    rw [List.foldl_cons]
    rcases List.mem_cons.mp hmem with he | hm
    · subst he
      simp only [hce, if_true]
      exact foldl_ud_mono g c (g e) xs (unionD acc (g e)) (unionD_absorb _ _)
    · exact ih _ e hm hce

lemma combinedDep_contains_reg (regs : List RegEntry) (unks : List Nat)
    (e : RegEntry) (he : e ∈ regs) (hd : isDepT e.trait = true) :
    unionD e.recKinds (combinedDepOf regs unks) = combinedDepOf regs unks := by
  simp only [combinedDepOf]
  refine foldl_ud_mono (fun _ => allD) isDepT e.recKinds unks _ ?_
  exact foldl_ud_contrib RegEntry.recKinds (fun x => isDepT x.trait) regs
    emptyD e he hd

/-- C6: in a finalized multi-entry node, if any entry (region or unknown)
is classified Dependency then every retained region entry carries exactly
the combined flow/anti/output kind set - the union of the Dependency
region entries' record kinds and all three kinds for Dependency unknown
accesses - so no two retained entries disagree on the kinds present. -/
theorem C6_nodeDependenceKinds (regs : List RegEntry) (unks : List Nat)
    (h : (∃ e ∈ regs, isDepT e.trait = true) ∨
      (∃ t ∈ unks, isDepT t = true)) :
    (∀ d ∈ finalRegKinds regs unks, d = combinedDepOf regs unks) ∧
    (∀ d1 ∈ finalRegKinds regs unks, ∀ d2 ∈ finalRegKinds regs unks,
      d1 = d2) := by
  have hall : ∀ d ∈ finalRegKinds regs unks, d = combinedDepOf regs unks := by
    intro d hd
    simp only [finalRegKinds] at hd
    rw [List.mem_map] at hd
    obtain ⟨e, he, heq⟩ := hd
    rw [← heq]
    by_cases hdep : isDepT e.trait = true
    · rw [if_pos hdep]
      exact combinedDep_contains_reg regs unks e he hdep
    · rw [if_neg hdep]
      exact unionD_emptyD _
  exact ⟨hall,
    fun d1 h1 d2 h2 => (hall d1 h1).trans (hall d2 h2).symm⟩

/-- C6 witness: a node with a Dependency entry carrying an output-kind
record and a Readonly entry: both retained entries end up with exactly
the output kind. -/
theorem C6_witness :
    ((∃ e ∈ [RegEntry.mk Dependency ⟨false, false, true⟩,
        RegEntry.mk Readonly ⟨false, false, false⟩],
      isDepT e.trait = true) ∨
      (∃ t ∈ ([] : List Nat), isDepT t = true)) ∧
    (∀ d ∈ finalRegKinds
        [RegEntry.mk Dependency ⟨false, false, true⟩,
         RegEntry.mk Readonly ⟨false, false, false⟩] [],
      d = combinedDepOf
        [RegEntry.mk Dependency ⟨false, false, true⟩,
         RegEntry.mk Readonly ⟨false, false, false⟩] []) :=
  ⟨Or.inl (by decide),
   (C6_nodeDependenceKinds
      [RegEntry.mk Dependency ⟨false, false, true⟩,
       RegEntry.mk Readonly ⟨false, false, false⟩] []
      (Or.inl (by decide))).1⟩

end TsarPriv
